import Mathlib

/-!
# Verification of the pdf_to_word batch extraction pipeline

Shallow embedding of `src/pdf_to_word/main.py`.  The remote model, the UI
widgets and the word-processor serializer are external collaborators; the
model call is abstracted by an explicit per-file `Outcome`, and the document
is modelled as the list of paragraphs the assembly loop appends.  Python
strings are modelled as `String` / `List Char` (ASCII whitespace and
case-conversion, which is what the filenames and placeholder strings use).
-/

namespace PdfToWord

/-! ## Python string primitives -/

/-- The whitespace class of Python `str.strip()` (ASCII part). -/
def isPySpace (c : Char) : Bool :=
  c = ' ' || c = '\t' || c = '\n' || c = '\r' || c = '\x0b' || c = '\x0c'

/-- Python `str.strip()`: drop leading and trailing whitespace. -/
def stripChars (l : List Char) : List Char :=
  ((l.dropWhile isPySpace).reverse.dropWhile isPySpace).reverse

/-- Python `str.strip()` on `String`. -/
def pyStrip (s : String) : String := ⟨stripChars s.data⟩

/-- Python `s.split(sep)` for a one-character separator.
The result is never empty: `"".split(sep) == [""]`. -/
def splitChars (sep : Char) : List Char → List (List Char)
  | [] => [[]]
  | c :: cs =>
    if c = sep then [] :: splitChars sep cs
    else
      match splitChars sep cs with
      | [] => [[c]]
      | l :: ls => (c :: l) :: ls

/-- Python `sep.join(pieces)` for a one-character separator. -/
def joinWith (sep : Char) : List (List Char) → List Char
  | [] => []
  | [l] => l
  | l :: ls => l ++ sep :: joinWith sep ls

/-- Python `s.lower()` (ASCII case folding, `Char.toLower`). -/
def pyLower (s : String) : String := ⟨s.data.map Char.toLower⟩

/-! ## The normalization pass (main.py lines 156–163) -/

/-- Lines 158–162: a stripped line is appended verbatim whether or not it is
blank (`''` is re-appended as `''`), so this is the branch structure of the
loop body. -/
def keepLine (line : List Char) : List Char := if line = [] then [] else line

/-- Lines 156–163: split on line breaks, strip each line, keep blank lines,
rejoin with line breaks. -/
def cleanChars (s : List Char) : List Char :=
  joinWith '\n' (((splitChars '\n' s).map stripChars).map keepLine)

/-- The normalization pass on `String`. -/
def clean (s : String) : String := ⟨cleanChars s.data⟩

/-! ## Filename sequencing (main.py lines 46–50) -/

/-- An uploaded file; its binary content plays no role in the ordering or
bookkeeping logic, which only inspects the name, so it is omitted. -/
structure UploadedFile where
  name : String
deriving DecidableEq, Repr

/-- The first contiguous run of decimal digits in a character list
(`re.search` with a digit-run pattern). -/
def firstDigitRun : List Char → Option (List Char)
  | [] => none
  | c :: cs =>
    if c.isDigit then some (c :: cs.takeWhile Char.isDigit)
    else firstDigitRun cs

/-- Python `int` of a run of decimal digits. -/
def digitsVal (ds : List Char) : Nat :=
  ds.foldl (fun a c => 10 * a + (c.toNat - 48)) 0

/-- Lines 46–48: the sort key.  A file whose name has a digit run gets its
integer value; a file without digits gets `float('inf')`, modelled as `⊤`. -/
def extract_number (f : UploadedFile) : WithTop Nat :=
  match firstDigitRun f.name.data with
  | some ds => (digitsVal ds : Nat)
  | none => ⊤

/-- The comparison `sorted` uses on line 50: ascending by extracted key. -/
def keyLE (a b : UploadedFile) : Prop := extract_number a ≤ extract_number b

instance : DecidableRel keyLE := fun a b =>
  inferInstanceAs (Decidable (extract_number a ≤ extract_number b))

instance : IsTotal UploadedFile keyLE := ⟨fun a b => le_total _ _⟩

instance : IsTrans UploadedFile keyLE := ⟨fun _ _ _ h h' => le_trans h h'⟩

/-- Line 50: Python `sorted` is a stable sort; insertion sort with a total
preorder computes the same list. -/
def sorted_files (files : List UploadedFile) : List UploadedFile :=
  List.insertionSort keyLE files

/-! ## Per-file processing (main.py lines 73–179) -/

/-- Line 76: `file.name.lower().split('.')[-1]`. -/
def fileExt (name : String) : String :=
  ⟨(splitChars '.' (pyLower name).data).getLastD []⟩

/-- Line 79: membership in `['jpg', 'jpeg', 'png']`. -/
def isImageExt (e : String) : Bool := e = "jpg" || e = "jpeg" || e = "png"

/-- Observable side effects of processing one file. -/
inductive Event where
  | remoteCall
  | tmpCreated
  | tmpDeleted
deriving DecidableEq, Repr

/-- The behaviour of the external world while one file is processed:
`preError` – an exception before any remote interaction (e.g. `file.read`
or image decoding); `remoteOk t` – upload (for PDFs) and model call succeed
and the response's text field is `t` (`none` models a null text field);
`remoteError` – `genai.upload_file` or `model.generate_content` raises. -/
inductive Outcome where
  | preError (msg : String)
  | remoteOk (respText : Option String)
  | remoteError (msg : String)
deriving DecidableEq, Repr

/-- Lines 105 and 143: `response.text.strip() if response.text else
"[No text detected or low confidence]"` (a `none` or empty text field is
falsy; otherwise the text is stripped). -/
def respToText : Option String → String
  | some s => if s = "" then "[No text detected or low confidence]" else pyStrip s
  | none => "[No text detected or low confidence]"

/-- One entry of `extracted_data` (lines 166–169 / 177). -/
structure ExtractionResult where
  filename : String
  text : String
deriving DecidableEq, Repr

/-- Lines 76–153, the body of the per-file `try`.  `.ok (t, evs)` means the
body completes with `full_text = t` having emitted events `evs`; `.error
(msg, evs)` means an exception with message `msg` escapes to the outer
handler at line 175.  For a PDF, both the success path and the
upload/model-call failure path run the `finally` at lines 147–150, so both
end with `tmpDeleted`; the pre-read failure path never creates the file. -/
def tryBody (f : UploadedFile) (oc : Outcome) :
    Except (String × List Event) (String × List Event) :=
  if isImageExt (fileExt f.name) then
    match oc with
    | .preError msg => .error (msg, [])
    | .remoteOk t => .ok (respToText t, [.remoteCall])
    | .remoteError msg => .error (msg, [.remoteCall])
  else if fileExt f.name = "pdf" then
    match oc with
    | .preError msg => .error (msg, [])
    | .remoteOk t => .ok (respToText t, [.tmpCreated, .remoteCall, .tmpDeleted])
    | .remoteError msg =>
      .ok ("[Gemini error: " ++ msg ++ "]", [.tmpCreated, .remoteCall, .tmpDeleted])
  else
    .ok ("[Unsupported file type]", [])

/-- Lines 73–179 for one file: on normal completion the text is normalized
(line 163) and stored (line 166); on an escaped exception the outer handler
stores the placeholder verbatim (lines 176–177). -/
def processFile (f : UploadedFile) (oc : Outcome) : ExtractionResult × List Event :=
  match tryBody f oc with
  | .ok (fullText, evs) => (⟨f.name, clean fullText⟩, evs)
  | .error (msg, evs) => (⟨f.name, "[Unexpected error: " ++ msg ++ "]"⟩, evs)

/-- The batch loop (line 73): one result appended per file of the sequenced
batch, whatever the per-file outcome. -/
def extracted_data (files : List UploadedFile) (oc : UploadedFile → Outcome) :
    List ExtractionResult :=
  (sorted_files files).map (fun f => (processFile f (oc f)).1)

/-! ## Document assembly (main.py lines 184–205) -/

/-- One paragraph of the assembled document: the level-0 title heading, a
bold fixed-size run, or a plain run. -/
inductive Para where
  | heading (text : String)
  | boldRun (text : String)
  | plain (text : String)
deriving DecidableEq, Repr

/-- Line 185. -/
def docTitle : String := "Exact Text Extraction from Images & PDFs"

/-- Line 186. -/
def docIntro : String := "Files processed in order shown above."

/-- Line 205: `"_" * 60` — sixty underscore characters. -/
def separator : String := ⟨List.replicate 60 '_'⟩

/-- Python `text.split("\n")` (line 197). -/
def splitLines (s : String) : List String :=
  (splitChars '\n' s.data).map fun l => ⟨l⟩

/-- Lines 188–205, one iteration: append the bold `Source:` header, one
paragraph per line of the text, then the separator paragraph. -/
def addItem (doc : List Para) (it : ExtractionResult) : List Para :=
  let doc1 := doc ++ [Para.boldRun ("Source: " ++ it.filename)]
  let doc2 := doc1 ++ (splitLines it.text).map Para.plain
  doc2 ++ [Para.plain separator]

/-- Lines 184–205: title heading, introductory paragraph, then the loop. -/
def buildDoc (items : List ExtractionResult) : List Para :=
  items.foldl addItem [Para.heading docTitle, Para.plain docIntro]

/-- The per-item block as the specification describes it: one bold
`Source:` header, one paragraph per line, one separator rule (the rule
being sixty underscores, per line 205). -/
def specBlock (it : ExtractionResult) : List Para :=
  Para.boldRun ("Source: " ++ it.filename) ::
    ((splitLines it.text).map Para.plain ++ [Para.plain separator])

/-! ## Helper lemmas: splitting and joining -/

theorem splitChars_ne_nil (sep : Char) : ∀ l : List Char, splitChars sep l ≠ [] := by
  intro l
  induction l with
  | nil => simp [splitChars]
  | cons c cs ih =>
    simp only [splitChars]
    split
    · exact List.cons_ne_nil _ _
    · split
      · exact List.cons_ne_nil _ _
      · exact List.cons_ne_nil _ _

theorem splitChars_no_sep (sep : Char) :
    ∀ (l : List Char), ∀ p ∈ splitChars sep l, sep ∉ p := by
  intro l
  induction l with
  | nil =>
    intro p hp
    simp only [splitChars, List.mem_singleton] at hp
    simp [hp]
  | cons c cs ih =>
    intro p hp
    by_cases hc : c = sep
    · rw [splitChars, if_pos hc] at hp
      rcases List.mem_cons.mp hp with h | h
      · simp [h]
      · exact ih p h
    · rw [splitChars, if_neg hc] at hp
      cases hsp : splitChars sep cs with
      | nil => exact absurd hsp (splitChars_ne_nil sep cs)
      | cons l0 ls =>
        rw [hsp] at hp
        rcases List.mem_cons.mp hp with h | h
        · subst h
          intro hmem
          rcases List.mem_cons.mp hmem with h1 | h1
          · exact hc h1.symm
          · exact ih l0 (hsp ▸ List.mem_cons_self l0 ls) h1
        · exact ih p (hsp ▸ List.mem_cons.mpr (Or.inr h))

theorem splitChars_of_not_mem {sep : Char} :
    ∀ {l : List Char}, sep ∉ l → splitChars sep l = [l] := by
  intro l
  induction l with
  | nil => intro _; rfl
  | cons c cs ih =>
    intro h
    have hc : ¬ c = sep := fun hcs => h (hcs ▸ List.mem_cons_self c cs)
    have hcs : sep ∉ cs := fun hm => h (List.mem_cons.mpr (Or.inr hm))
    rw [splitChars, if_neg hc, ih hcs]

theorem splitChars_append_sep (sep : Char) {p : List Char} (hp : sep ∉ p) (t : List Char) :
    splitChars sep (p ++ sep :: t) = p :: splitChars sep t := by
  induction p with
  | nil =>
    simp only [List.nil_append]
    rw [splitChars, if_pos rfl]
  | cons c cs ih =>
    have hc : ¬ c = sep := fun hcs => hp (hcs ▸ List.mem_cons_self c cs)
    have hcs : sep ∉ cs := fun hm => hp (List.mem_cons.mpr (Or.inr hm))
    rw [List.cons_append, splitChars, if_neg hc, ih hcs]

theorem splitChars_joinWith (sep : Char) :
    ∀ {ls : List (List Char)}, ls ≠ [] → (∀ p ∈ ls, sep ∉ p) →
      splitChars sep (joinWith sep ls) = ls := by
  intro ls
  induction ls with
  | nil => intro h; exact absurd rfl h
  | cons l ls ih =>
    intro _ hall
    cases ls with
    | nil =>
      rw [joinWith]
      exact splitChars_of_not_mem (hall l (List.mem_cons_self l []))
    | cons l' ls' =>
      rw [joinWith, splitChars_append_sep sep (hall l (List.mem_cons_self _ _))]
      · rw [ih (List.cons_ne_nil _ _) (fun p hp => hall p (List.mem_cons.mpr (Or.inr hp)))]
      · exact fun h => absurd h (List.cons_ne_nil _ _)

/-! ## Helper lemmas: stripping -/

theorem head?_dropWhile_false (p : α → Bool) (l : List α) {c : α}
    (h : (l.dropWhile p).head? = some c) : p c = false := by
  have := List.head?_dropWhile_not p l
  rw [h] at this
  exact this

theorem getLast?_dropWhile (p : α → Bool) :
    ∀ (l : List α) {c : α}, (l.dropWhile p).getLast? = some c → l.getLast? = some c := by
  intro l
  induction l with
  | nil => intro c h; simp at h
  | cons a l ih =>
    intro c h
    by_cases hpa : p a
    · rw [List.dropWhile_cons_of_pos hpa] at h
      have hl := ih h
      cases l with
      | nil => simp at hl
      | cons b l' => rw [List.getLast?_cons_cons]; exact hl
    · rwa [List.dropWhile_cons_of_neg hpa] at h

theorem dropWhile_eq_self_of_head (p : α → Bool) (l : List α)
    (h : ∀ c, l.head? = some c → p c = false) : l.dropWhile p = l := by
  cases l with
  | nil => rfl
  | cons a l =>
    rw [List.dropWhile_cons_of_neg]
    simp [h a rfl]

theorem head?_stripChars_not (l : List Char) {c : Char}
    (h : (stripChars l).head? = some c) : isPySpace c = false := by
  unfold stripChars at h
  rw [List.head?_reverse] at h
  have h2 := getLast?_dropWhile isPySpace (l.dropWhile isPySpace).reverse h
  rw [List.getLast?_reverse] at h2
  exact head?_dropWhile_false isPySpace l h2

theorem getLast?_stripChars_not (l : List Char) {c : Char}
    (h : (stripChars l).getLast? = some c) : isPySpace c = false := by
  unfold stripChars at h
  rw [List.getLast?_reverse] at h
  exact head?_dropWhile_false isPySpace _ h

theorem stripChars_idem (l : List Char) : stripChars (stripChars l) = stripChars l := by
  conv_lhs => rw [stripChars]
  rw [dropWhile_eq_self_of_head _ _ (fun c hc => head?_stripChars_not l hc)]
  rw [dropWhile_eq_self_of_head]
  · exact List.reverse_reverse _
  · intro c hc
    rw [List.head?_reverse] at hc
    exact getLast?_stripChars_not l hc

theorem mem_stripChars {c : Char} {l : List Char} (h : c ∈ stripChars l) : c ∈ l := by
  unfold stripChars at h
  rw [List.mem_reverse] at h
  have h2 := (List.dropWhile_sublist isPySpace).mem h
  rw [List.mem_reverse] at h2
  exact (List.dropWhile_sublist isPySpace).mem h2

/-! ## Helper lemmas: the normalization pass -/

theorem keepLine_eq (l : List Char) : keepLine l = l := by
  unfold keepLine
  split <;> simp_all

theorem map_keepLine (ls : List (List Char)) : ls.map keepLine = ls := by
  induction ls with
  | nil => rfl
  | cons a as ih => simp [keepLine_eq, ih]

theorem cleanChars_idem (s : List Char) : cleanChars (cleanChars s) = cleanChars s := by
  unfold cleanChars
  rw [map_keepLine, map_keepLine]
  have h1 : (splitChars '\n' s).map stripChars ≠ [] := by
    rw [Ne, List.map_eq_nil_iff]
    exact splitChars_ne_nil '\n' s
  have h2 : ∀ p ∈ (splitChars '\n' s).map stripChars, '\n' ∉ p := by
    intro p hp
    rcases List.mem_map.mp hp with ⟨q, hq, rfl⟩
    intro hmem
    exact splitChars_no_sep '\n' s q hq (mem_stripChars hmem)
  rw [splitChars_joinWith '\n' h1 h2]
  congr 1
  rw [List.map_map]
  exact List.map_congr_left (fun a _ => stripChars_idem a)

theorem clean_idem (s : String) : clean (clean s) = clean s := by
  unfold clean
  exact congrArg String.mk (cleanChars_idem s.data)

/-! ## Helper lemmas: sorting and stability -/

/-- Tests whether `f` has key `k` (Boolean form, for `List.filter`). -/
def keyIs (k : WithTop Nat) (f : UploadedFile) : Bool := decide (extract_number f = k)

theorem not_keyLE_key_ne {a b : UploadedFile} (h : ¬ keyLE a b)
    {k : WithTop Nat} (ha : extract_number a = k) : keyIs k b = false := by
  unfold keyLE at h
  have hlt : extract_number b < extract_number a := lt_of_not_le h
  unfold keyIs
  simp only [decide_eq_false_iff_not]
  intro hb
  rw [ha] at hlt
  rw [hb] at hlt
  exact lt_irrefl k hlt

theorem filter_orderedInsert_key_eq (k : WithTop Nat) (a : UploadedFile)
    (ha : extract_number a = k) :
    ∀ s : List UploadedFile,
      (s.orderedInsert keyLE a).filter (keyIs k) = a :: s.filter (keyIs k) := by
  intro s
  induction s with
  | nil => simp [List.orderedInsert, keyIs, ha]
  | cons b s ih =>
    by_cases h : keyLE a b
    · rw [List.orderedInsert, if_pos h, List.filter_cons_of_pos (by simp [keyIs, ha])]
    · rw [List.orderedInsert, if_neg h,
        List.filter_cons_of_neg (by simp [not_keyLE_key_ne h ha]), ih,
        List.filter_cons_of_neg (by simp [not_keyLE_key_ne h ha])]

theorem filter_orderedInsert_key_ne (k : WithTop Nat) (a : UploadedFile)
    (ha : keyIs k a = false) :
    ∀ s : List UploadedFile,
      (s.orderedInsert keyLE a).filter (keyIs k) = s.filter (keyIs k) := by
  intro s
  induction s with
  | nil => simp [List.orderedInsert, ha]
  | cons b s ih =>
    by_cases h : keyLE a b
    · rw [List.orderedInsert, if_pos h, List.filter_cons_of_neg (by simp [ha])]
    · rw [List.orderedInsert, if_neg h]
      by_cases hb : keyIs k b
      · rw [List.filter_cons_of_pos hb, ih, List.filter_cons_of_pos hb]
      · rw [List.filter_cons_of_neg (by simpa using hb), ih,
          List.filter_cons_of_neg (by simpa using hb)]

/-- Stability of the sequencer: for every key value, the files carrying that
key appear in the output in their original order. -/
theorem sorted_files_stable (k : WithTop Nat) :
    ∀ files : List UploadedFile,
      (sorted_files files).filter (keyIs k) = files.filter (keyIs k) := by
  intro files
  induction files with
  | nil => rfl
  | cons f files ih =>
    have hstep : sorted_files (f :: files)
        = List.orderedInsert keyLE f (sorted_files files) := rfl
    rw [hstep]
    by_cases hf : extract_number f = k
    · rw [filter_orderedInsert_key_eq k f hf, ih,
        List.filter_cons_of_pos (by simp [keyIs, hf])]
    · have hf' : keyIs k f = false := by simp [keyIs, hf]
      rw [filter_orderedInsert_key_ne k f hf', ih, List.filter_cons_of_neg (by simp [hf'])]

theorem sorted_files_sorted (files : List UploadedFile) :
    (sorted_files files).Sorted keyLE :=
  List.sorted_insertionSort keyLE files

theorem firstDigitRun_eq_none :
    ∀ {l : List Char}, (∀ c ∈ l, c.isDigit = false) → firstDigitRun l = none := by
  intro l
  induction l with
  | nil => intro _; rfl
  | cons c cs ih =>
    intro h
    rw [firstDigitRun, if_neg (by simp [h c (List.mem_cons_self c cs)])]
    exact ih fun d hd => h d (List.mem_cons.mpr (Or.inr hd))

/-! ## Helper lemmas: extensions and case folding -/

theorem toNat_ofNat_valid {n : Nat} (h : n.isValidChar) : (Char.ofNat n).toNat = n := by
  rw [Char.ofNat, dif_pos h]
  rfl

theorem toLower_eq_dot {c : Char} (h : c.toLower = '.') : c = '.' := by
  by_cases hu : 65 ≤ c.toNat ∧ c.toNat ≤ 90
  · exfalso
    have h2 : (Char.ofNat (c.toNat + 32)).toNat = ('.' : Char).toNat := by
      rw [← h]
      unfold Char.toLower
      rw [if_pos hu]
    rw [toNat_ofNat_valid (Or.inl (by omega))] at h2
    have h3 : ('.' : Char).toNat = 46 := by decide
    omega
  · unfold Char.toLower at h
    rw [if_neg hu] at h
    exact h

theorem mem_pyLower_dot {l : List Char} (h : '.' ∈ l.map Char.toLower) : '.' ∈ l := by
  rcases List.mem_map.mp h with ⟨c, hc, hcl⟩
  rwa [toLower_eq_dot hcl] at hc

/-- A filename with no `'.'` yields its whole lowercased self as extension. -/
theorem fileExt_no_dot {name : String} (h : '.' ∉ name.data) :
    fileExt name = pyLower name := by
  have h2 : '.' ∉ (pyLower name).data := fun hm => h (mem_pyLower_dot hm)
  unfold fileExt
  rw [splitChars_of_not_mem h2]
  rfl

/-! ## Helper lemmas: per-file processing -/

/-- Returns `true` exactly when the per-file `try` body raises, reaching the outer
handler at line 175. -/
def escapesToOuter (f : UploadedFile) (oc : Outcome) : Bool :=
  match tryBody f oc with
  | .ok _ => false
  | .error _ => true

theorem tryBody_unsupported (f : UploadedFile) (oc : Outcome)
    (h1 : isImageExt (fileExt f.name) = false) (h2 : fileExt f.name ≠ "pdf") :
    tryBody f oc = .ok ("[Unsupported file type]", []) := by
  unfold tryBody
  rw [if_neg (by simp [h1]), if_neg h2]

theorem clean_unsupported : clean "[Unsupported file type]" = "[Unsupported file type]" := by
  decide

theorem processFile_unsupported (f : UploadedFile) (oc : Outcome)
    (h1 : isImageExt (fileExt f.name) = false) (h2 : fileExt f.name ≠ "pdf") :
    (processFile f oc).1.text = "[Unsupported file type]" ∧ (processFile f oc).2 = [] := by
  unfold processFile
  rw [tryBody_unsupported f oc h1 h2]
  exact ⟨clean_unsupported, rfl⟩

theorem processFile_ok {f : UploadedFile} {oc : Outcome} {t : String} {evs : List Event}
    (htb : tryBody f oc = Except.ok (t, evs)) :
    processFile f oc = (⟨f.name, clean t⟩, evs) := by
  unfold processFile
  rw [htb]

theorem processFile_error {f : UploadedFile} {oc : Outcome} {msg : String} {evs : List Event}
    (htb : tryBody f oc = Except.error (msg, evs)) :
    processFile f oc = (⟨f.name, "[Unexpected error: " ++ msg ++ "]"⟩, evs) := by
  unfold processFile
  rw [htb]

/-- The filename of a result is always the processed file's name. -/
theorem processFile_filename (f : UploadedFile) (oc : Outcome) :
    (processFile f oc).1.filename = f.name := by
  unfold processFile
  cases tryBody f oc with
  | ok v => obtain ⟨t, evs⟩ := v; rfl
  | error e => obtain ⟨m, evs⟩ := e; rfl

/-- The complete enumeration of per-file event traces. -/
theorem processFile_events_cases (f : UploadedFile) (oc : Outcome) :
    (processFile f oc).2 = [] ∨ (processFile f oc).2 = [Event.remoteCall] ∨
    (processFile f oc).2 = [Event.tmpCreated, Event.remoteCall, Event.tmpDeleted] := by
  unfold processFile tryBody
  by_cases hi : isImageExt (fileExt f.name)
  · simp only [if_pos hi]
    cases oc with
    | preError msg => simp
    | remoteOk t => simp
    | remoteError msg => simp
  · simp only [if_neg hi]
    by_cases hp : fileExt f.name = "pdf"
    · simp only [if_pos hp]
      cases oc with
      | preError msg => simp
      | remoteOk t => simp
      | remoteError msg => simp
    · simp only [if_neg hp]
      simp

/-! ## Helper lemmas: document assembly -/

theorem addItem_eq (doc : List Para) (it : ExtractionResult) :
    addItem doc it = doc ++ specBlock it := by
  unfold addItem specBlock
  simp [List.append_assoc]

theorem foldl_addItem (items : List ExtractionResult) :
    ∀ doc : List Para, items.foldl addItem doc = doc ++ (items.map specBlock).flatten := by
  induction items with
  | nil => intro doc; simp
  | cons it items ih =>
    intro doc
    rw [List.foldl_cons, addItem_eq, ih, List.map_cons, List.flatten_cons, List.append_assoc]

theorem buildDoc_eq_blocks (items : List ExtractionResult) :
    buildDoc items
      = Para.heading docTitle :: Para.plain docIntro :: (items.map specBlock).flatten := by
  unfold buildDoc
  rw [foldl_addItem]
  rfl

/-- Is this paragraph a bold run (the shape of the per-file header)? -/
def isBoldHeader : Para → Bool
  | .boldRun _ => true
  | _ => false

theorem filter_isBoldHeader_plains (ls : List String) :
    (ls.map Para.plain).filter isBoldHeader = [] := by
  induction ls with
  | nil => rfl
  | cons a as ih =>
    rw [List.map_cons, List.filter_cons_of_neg (by simp [isBoldHeader]), ih]

theorem filter_isBoldHeader_block (it : ExtractionResult) :
    (specBlock it).filter isBoldHeader = [Para.boldRun ("Source: " ++ it.filename)] := by
  unfold specBlock
  rw [List.filter_cons_of_pos (by simp [isBoldHeader]), List.filter_append,
    filter_isBoldHeader_plains, List.filter_cons_of_neg (by simp [isBoldHeader])]
  rfl

theorem filter_isBoldHeader_join (items : List ExtractionResult) :
    ((items.map specBlock).flatten).filter isBoldHeader
      = items.map (fun it => Para.boldRun ("Source: " ++ it.filename)) := by
  induction items with
  | nil => rfl
  | cons it items ih =>
    rw [List.map_cons, List.flatten_cons, List.filter_append, filter_isBoldHeader_block, ih,
      List.map_cons]
    rfl

/-! ## The claims -/

/-- C1: For every list of uploaded files, the Filename Sequencer sorts them
ascending by the integer value of the first contiguous run of decimal digits
in each filename (`keyLE` compares exactly these `extract_number` keys), a
file with no digit in its name gets the effectively infinite key `⊤` (and so
sorts last, by sortedness), and the sort is stable: for every key value, the
files carrying that key — in particular all digit-less files — keep their
original upload order. -/
theorem C1_sequencer_sorted_and_stable (files : List UploadedFile) :
    (sorted_files files).Sorted keyLE ∧
    (∀ k : WithTop Nat,
      (sorted_files files).filter (keyIs k) = files.filter (keyIs k)) ∧
    (∀ f ∈ files, (∀ c ∈ f.name.data, c.isDigit = false) → extract_number f = ⊤) := by
  refine ⟨sorted_files_sorted files, fun k => sorted_files_stable k files, ?_⟩
  intro f _ hf
  unfold extract_number
  rw [firstDigitRun_eq_none hf]

/-- Witness for C1 at a concrete batch containing a digit-less filename. -/
theorem C1_witness :
    (sorted_files [⟨"b2.png"⟩, ⟨"a10.jpg"⟩, ⟨"readme"⟩, ⟨"a2.pdf"⟩]).Sorted keyLE ∧
    extract_number ⟨"readme"⟩ = ⊤ :=
  ⟨(C1_sequencer_sorted_and_stable [⟨"b2.png"⟩, ⟨"a10.jpg"⟩, ⟨"readme"⟩, ⟨"a2.pdf"⟩]).1,
   (C1_sequencer_sorted_and_stable [⟨"b2.png"⟩, ⟨"a10.jpg"⟩, ⟨"readme"⟩, ⟨"a2.pdf"⟩]).2.2
     ⟨"readme"⟩ (by decide) (by decide)⟩

/-- C2 is false as stated: the separator paragraph emitted after each
result's block is sixty underscore characters (line 205 is `"_" * 60`), not
sixty dash characters; at the concrete batch below the assembled document
ends with the underscore rule and contains no dash rule at all. -/
theorem C2_counterexample :
    (buildDoc [⟨"a.pdf", "hi"⟩]).getLast? = some (Para.plain ⟨List.replicate 60 '_'⟩) ∧
    Para.plain ⟨List.replicate 60 '-'⟩ ∉ buildDoc [⟨"a.pdf", "hi"⟩] ∧
    (⟨List.replicate 60 '_'⟩ : String) ≠ ⟨List.replicate 60 '-'⟩ := by
  decide

/-- C2 (amended): for every ordered result collection, the assembled
document begins with the title heading and one introductory paragraph, and
then for each result, in order, contains exactly one bold header paragraph
reading "Source: &lt;filename&gt;", followed by one paragraph per line of the
result's text (blank lines included as empty paragraphs), followed by a
separator paragraph consisting of 60 repeated underscore characters (not
dash characters). -/
theorem C2_document_structure (items : List ExtractionResult) :
    buildDoc items
      = Para.heading docTitle :: Para.plain docIntro :: (items.map specBlock).flatten ∧
    (buildDoc items).filter isBoldHeader
      = items.map (fun it => Para.boldRun ("Source: " ++ it.filename)) := by
  refine ⟨buildDoc_eq_blocks items, ?_⟩
  rw [buildDoc_eq_blocks items,
    List.filter_cons_of_neg (by simp [isBoldHeader]),
    List.filter_cons_of_neg (by simp [isBoldHeader]),
    filter_isBoldHeader_join]

/-- C3: the batch run appends exactly one ExtractionResult per input file,
whatever each file's kind and outcome: the result collection's length always
equals the number of uploaded files. -/
theorem C3_one_result_per_file (files : List UploadedFile)
    (oc : UploadedFile → Outcome) :
    (extracted_data files oc).length = files.length := by
  unfold extracted_data sorted_files
  rw [List.length_map, List.length_insertionSort]

/-- C4 is false as stated: on the outer-handler path (lines 175–177) the
"[Unexpected error: ...]" placeholder is stored without the normalization
pass; with an exception message containing a line with trailing whitespace,
the stored text differs from its own normalization. -/
theorem C4_counterexample :
    (processFile ⟨"a.pdf"⟩ (.preError "boom \nx")).1.text
      = "[Unexpected error: boom \nx]" ∧
    clean "[Unexpected error: boom \nx]" ≠ "[Unexpected error: boom \nx]" := by
  decide

/-- C4 (amended): on every path on which the per-file try body completes —
every file kind, successful transcription, the "[Gemini error: ...]" and
"[No text detected or low confidence]" and "[Unsupported file type]"
placeholders alike — the stored text is the normalization of the computed
raw text and hence is a fixed point of the normalization pass; the one
exception is the outer unexpected-error path, which stores its placeholder
verbatim, without the pass. -/
theorem C4_normalization_on_completed_paths (f : UploadedFile) (oc : Outcome)
    (h : escapesToOuter f oc = false) :
    (∀ t evs, tryBody f oc = Except.ok (t, evs) →
      (processFile f oc).1.text = clean t) ∧
    clean ((processFile f oc).1.text) = (processFile f oc).1.text := by
  cases htb : tryBody f oc with
  | ok v =>
    obtain ⟨t0, evs0⟩ := v
    constructor
    · intro t evs hte
      cases hte
      rw [processFile_ok htb]
    · rw [processFile_ok htb]
      exact clean_idem t0
  | error e =>
    exfalso
    have hx : escapesToOuter f oc = true := by
      unfold escapesToOuter
      rw [htb]
    rw [h] at hx
    exact Bool.false_ne_true hx

/-- Witness for C4 at a concrete image file and successful response. -/
theorem C4_witness :
    escapesToOuter ⟨"a.jpg"⟩ (.remoteOk (some " hi ")) = false ∧
    clean ((processFile ⟨"a.jpg"⟩ (.remoteOk (some " hi "))).1.text)
      = (processFile ⟨"a.jpg"⟩ (.remoteOk (some " hi "))).1.text :=
  ⟨by decide,
   (C4_normalization_on_completed_paths ⟨"a.jpg"⟩ (.remoteOk (some " hi "))
     (by decide)).2⟩

/-- C5: a per-file failure is captured locally and processing continues —
when the PDF upload/model call raises, the try body completes normally with
raw text "[Gemini error: &lt;message&gt;]" (so the outer loop just proceeds);
when any other per-file failure escapes to the outer handler, the stored
text is "[Unexpected error: &lt;message&gt;]"; and in all cases every file of
the batch still yields its own result, in order. -/
theorem C5_failures_captured_locally (f : UploadedFile) (msg : String)
    (files : List UploadedFile) (oc : UploadedFile → Outcome) :
    (fileExt f.name = "pdf" →
      tryBody f (.remoteError msg)
        = Except.ok ("[Gemini error: " ++ msg ++ "]",
            [Event.tmpCreated, Event.remoteCall, Event.tmpDeleted])) ∧
    (∀ oc' evs, tryBody f oc' = Except.error (msg, evs) →
      (processFile f oc').1.text = "[Unexpected error: " ++ msg ++ "]") ∧
    (extracted_data files oc).map (fun r => r.filename)
      = (sorted_files files).map (fun g => g.name) := by
  refine ⟨?_, ?_, ?_⟩
  · intro hpdf
    unfold tryBody
    rw [hpdf]
    simp [isImageExt]
  · intro oc' evs hte
    rw [processFile_error hte]
  · unfold extracted_data
    rw [List.map_map]
    exact List.map_congr_left fun g _ => processFile_filename g (oc g)

/-- Witness for C5 at a concrete PDF whose upload stage fails, and a
concrete image file whose model call fails (caught by the outer handler). -/
theorem C5_witness :
    fileExt "1.pdf" = "pdf" ∧
    tryBody ⟨"1.pdf"⟩ (.remoteError "boom")
      = Except.ok ("[Gemini error: boom]",
          [Event.tmpCreated, Event.remoteCall, Event.tmpDeleted]) ∧
    (processFile ⟨"2.jpg"⟩ (.remoteError "oops")).1.text = "[Unexpected error: oops]" :=
  ⟨by decide,
   (C5_failures_captured_locally ⟨"1.pdf"⟩ "boom" [] (fun _ => .remoteError "boom")).1
     (by decide),
   (C5_failures_captured_locally ⟨"2.jpg"⟩ "oops" [] (fun _ => .remoteError "oops")).2.1
     (.remoteError "oops") [Event.remoteCall] rfl⟩

/-- C6 is false in its second half: a whitespace-only response text is
truthy (it is neither empty nor null), is stripped, and the adapter's raw
result is the empty string. -/
theorem C6_counterexample :
    respToText (some " ") = "" ∧ (some " " : Option String) ≠ some "" := by
  decide

/-- C6 (amended): a model response with no text — null or empty — yields
exactly the literal "[No text detected or low confidence]"; the adapter's
raw result can nevertheless be the empty string, when a non-empty
whitespace-only response strips to nothing. -/
theorem C6_empty_response_placeholder (t : Option String)
    (h : t = none ∨ t = some "") :
    respToText t = "[No text detected or low confidence]" := by
  rcases h with rfl | rfl
  · rfl
  · rfl

/-- Witness for C6 at the null-text and empty-text responses. -/
theorem C6_witness :
    respToText none = "[No text detected or low confidence]" ∧
    respToText (some "") = "[No text detected or low confidence]" :=
  ⟨C6_empty_response_placeholder none (Or.inl rfl),
   C6_empty_response_placeholder (some "") (Or.inr rfl)⟩

/-- C7: the normalization pass is idempotent — applying the
split/strip/rejoin pass twice yields the same result as applying it once. -/
theorem C7_normalization_idempotent (s : String) : clean (clean s) = clean s :=
  clean_idem s

/-- C8: for a file whose (lowercased, after the last dot) extension is not
jpg/jpeg/png/pdf, the raw result text is exactly "[Unsupported file type]",
it is stored unchanged by normalization, and no remote call happens for that
file under any modelled outcome. -/
theorem C8_unsupported_no_remote_call (f : UploadedFile) (oc : Outcome)
    (h1 : isImageExt (fileExt f.name) = false) (h2 : fileExt f.name ≠ "pdf") :
    tryBody f oc = Except.ok ("[Unsupported file type]", []) ∧
    (processFile f oc).1.text = "[Unsupported file type]" ∧
    Event.remoteCall ∉ (processFile f oc).2 := by
  refine ⟨tryBody_unsupported f oc h1 h2, (processFile_unsupported f oc h1 h2).1, ?_⟩
  rw [(processFile_unsupported f oc h1 h2).2]
  exact List.not_mem_nil _

/-- Witness for C8 at "notes.txt". -/
theorem C8_witness :
    isImageExt (fileExt "notes.txt") = false ∧ fileExt "notes.txt" ≠ "pdf" ∧
    tryBody ⟨"notes.txt"⟩ (.remoteOk (some "x"))
      = Except.ok ("[Unsupported file type]", []) ∧
    Event.remoteCall ∉ (processFile ⟨"notes.txt"⟩ (.remoteOk (some "x"))).2 :=
  have h := C8_unsupported_no_remote_call ⟨"notes.txt"⟩ (.remoteOk (some "x"))
    (by decide) (by decide)
  ⟨by decide, by decide, h.1, h.2.2⟩

/-- C9: whenever processing a file creates the temporary PDF file, that
file's event trace ends with the deletion of the temporary file — on the
successful upload/model-call path and on the failing one alike — so the
temporary file is gone before the next file begins. -/
theorem C9_temp_file_released (f : UploadedFile) (oc : Outcome)
    (h : Event.tmpCreated ∈ (processFile f oc).2) :
    (processFile f oc).2.getLast? = some Event.tmpDeleted := by
  rcases processFile_events_cases f oc with he | he | he
  · rw [he] at h
    exact absurd h (by decide)
  · rw [he] at h
    exact absurd h (by decide)
  · rw [he]
    rfl

/-- Witness for C9 at a concrete PDF with a successful call. -/
theorem C9_witness :
    Event.tmpCreated ∈ (processFile ⟨"a.pdf"⟩ (.remoteOk none)).2 ∧
    (processFile ⟨"a.pdf"⟩ (.remoteOk none)).2.getLast? = some Event.tmpDeleted :=
  ⟨by decide, C9_temp_file_released ⟨"a.pdf"⟩ (.remoteOk none) (by decide)⟩

/-- C10 is false in its conclusion: the dotless filename "pdf" lowercases to
itself, the whole name is taken as the extension, and the file is treated as
a PDF — a remote call is made and the model's text is stored, not the
"[Unsupported file type]" placeholder. -/
theorem C10_counterexample :
    ('.' ∉ ("pdf" : String).data) ∧
    fileExt "pdf" = "pdf" ∧
    (processFile ⟨"pdf"⟩ (.remoteOk (some "hello"))).1.text = "hello" ∧
    (processFile ⟨"pdf"⟩ (.remoteOk (some "hello"))).1.text ≠ "[Unsupported file type]" ∧
    Event.remoteCall ∈ (processFile ⟨"pdf"⟩ (.remoteOk (some "hello"))).2 := by
  decide

/-- C10 (amended): the file kind is decided solely by the substring after
the last '.' of the lowercased filename, and for a filename containing no
'.' the whole lowercased name is taken as the extension; such a file is
treated as unsupported — "[Unsupported file type]", no remote call — unless
its whole lowercased name is itself one of jpg/jpeg/png/pdf. -/
theorem C10_no_dot_whole_name (f : UploadedFile) (oc : Outcome)
    (hnd : '.' ∉ f.name.data) :
    fileExt f.name = pyLower f.name ∧
    (isImageExt (pyLower f.name) = false → pyLower f.name ≠ "pdf" →
      tryBody f oc = Except.ok ("[Unsupported file type]", []) ∧
      Event.remoteCall ∉ (processFile f oc).2) := by
  have he := fileExt_no_dot hnd
  refine ⟨he, fun h1 h2 => ?_⟩
  have h1' : isImageExt (fileExt f.name) = false := by rw [he]; exact h1
  have h2' : fileExt f.name ≠ "pdf" := by rw [he]; exact h2
  refine ⟨tryBody_unsupported f oc h1' h2', ?_⟩
  rw [(processFile_unsupported f oc h1' h2').2]
  exact List.not_mem_nil _

/-- Witness for C10 at the dotless filename "README". -/
theorem C10_witness :
    fileExt "README" = pyLower "README" ∧
    tryBody ⟨"README"⟩ (.remoteOk none) = Except.ok ("[Unsupported file type]", []) :=
  have h := C10_no_dot_whole_name ⟨"README"⟩ (.remoteOk none) (by decide)
  ⟨h.1, (h.2 (by decide) (by decide)).1⟩

end PdfToWord
